import Mathlib

/- A shallow embedding of the graph-preparation engine of the two
co-occurrence mapping pages.  The embedding covers: the node and edge
tables, the per-quarter connectivity filter and co-occurrence rate, the
edge-endpoint resolution loop, the per-cluster co-occurrence ranking,
the weighted-centroid label layout with its polar offset, the assembled
node/edge payload arrays, the engagement-score unwrapping, and the
hover-point sampling along edges.  Rational numbers stand in for the
floating-point values of the source; operations that raise in the source
return Option none in the embedding. -/

/- The engagement score field of a node: a numeric value, a one-element
set holding a numeric value, or a value on which numeric coercion
raises.  This mirrors the dynamically typed avg_score column. -/
inductive ScoreVal where
  | num (q : ℚ)
  | oneSet (q : ℚ)
  | nonNumeric
deriving DecidableEq

/- One row of the node table (df_nodes). -/
structure Node where
  quarter : String
  x : ℚ
  y : ℚ
  cluster_name : String
  theme : String
  avg_score : ScoreVal
  scaled_size : ℚ
  sentiment : ℚ
deriving DecidableEq

/- One row of the edge table (df_edges). -/
structure Edge where
  quarter : String
  x0 : ℚ
  y0 : ℚ
  x1 : ℚ
  y1 : ℚ
  weight : ℚ
  color : String
  theme_1 : String
  theme_2 : String
  sentiment : ℚ
deriving DecidableEq

/- ----- Connectivity filter of calculate_river_flow_data (complex page,
suffix C).  The quarter subset, the set of coordinates occurring as edge
endpoints, the connected nodes, and the guarded co-occurrence rate. ----- -/

def nodesQ (nodes : List Node) (q : String) : List Node :=
  nodes.filter (fun n => n.quarter == q)

def edgesQ (edges : List Edge) (q : String) : List Edge :=
  edges.filter (fun e => e.quarter == q)

def totalNodesC (nodes : List Node) (q : String) : ℕ :=
  (nodesQ nodes q).length

def totalEdgesC (edges : List Edge) (q : String) : ℕ :=
  (edgesQ edges q).length

/- node_coords_q: every (x0,y0) and (x1,y1) of the quarter's edges. -/
def edgeCoordsC (edges : List Edge) : List (ℚ × ℚ) :=
  edges.flatMap (fun e => [(e.x0, e.y0), (e.x1, e.y1)])

/- has_edge_q: membership of the node's own position in that set. -/
def hasEdgeC (edges : List Edge) (n : Node) : Bool :=
  decide ((n.x, n.y) ∈ edgeCoordsC edges)

def connectedNodesC (nodes : List Node) (edges : List Edge) (q : String) : List Node :=
  (nodesQ nodes q).filter (hasEdgeC (edgesQ edges q))

def connectedCountC (nodes : List Node) (edges : List Edge) (q : String) : ℕ :=
  (connectedNodesC nodes edges q).length

/- co_occurrence_rate = (connected_count / total_nodes * 100) if
total_nodes > 0 else 0. -/
def coOccurrenceRateC (nodes : List Node) (edges : List Edge) (q : String) : ℚ :=
  if 0 < totalNodesC nodes q then
    (connectedCountC nodes edges q : ℚ) / (totalNodesC nodes q : ℚ) * 100
  else 0

/- ----- Connectivity in the run() of the mapping page (suffix M).  The
whole table is used (no quarter filter) and the rotated coordinates are
compared; the percentage shown in the info banner divides by total_nodes
with no guard, so a zero-row node table raises: modelled as none. ----- -/

def nodeRot (n : Node) : ℚ × ℚ := (-n.y, n.x)

def edgeRot0 (e : Edge) : ℚ × ℚ := (-e.y0, e.x0)

def edgeRot1 (e : Edge) : ℚ × ℚ := (-e.y1, e.x1)

def edgeCoordsM (edges : List Edge) : List (ℚ × ℚ) :=
  edges.flatMap (fun e => [edgeRot0 e, edgeRot1 e])

def connectedNodesM (nodes : List Node) (edges : List Edge) : List Node :=
  nodes.filter (fun n => decide (nodeRot n ∈ edgeCoordsM edges))

def totalNodesM (nodes : List Node) : ℕ := nodes.length

def connectedCountM (nodes : List Node) (edges : List Edge) : ℕ :=
  (connectedNodesM nodes edges).length

/- connected_nodes/total_nodes*100 with no zero guard. -/
def coOccurrenceRateM (nodes : List Node) (edges : List Edge) : Option ℚ :=
  if totalNodesM nodes = 0 then none
  else some ((connectedCountM nodes edges : ℚ) / (totalNodesM nodes : ℚ) * 100)

/- ----- Edge enrichment: the loop that scans the node list once per edge
and resolves the start coordinate in an if branch and the end coordinate
in an exclusive elif branch, starting from "Unknown" on both sides. ----- -/

def resolveStep (e : Edge) (st : String × String) (n : Node) : String × String :=
  if nodeRot n = edgeRot0 e then (n.cluster_name, st.2)
  else if nodeRot n = edgeRot1 e then (st.1, n.cluster_name)
  else st

def resolveClusters (nodes : List Node) (e : Edge) : String × String :=
  nodes.foldl (resolveStep e) ("Unknown", "Unknown")

/- One enriched edge record of the payload's edge array.  The fields of
the hover template (both clusters, both themes, truncated weight,
sentiment) are carried structurally instead of as a formatted string. -/
structure EdgeDatum where
  x0 : ℚ
  y0 : ℚ
  x1 : ℚ
  y1 : ℚ
  weight : ℚ
  color : String
  startCluster : String
  endCluster : String
  theme_1 : String
  theme_2 : String
  sentiment : ℚ
deriving DecidableEq

def mkEdgeDatum (nodes : List Node) (e : Edge) : EdgeDatum :=
  let p := resolveClusters nodes e
  { x0 := -e.y0, y0 := e.x0, x1 := -e.y1, y1 := e.x1,
    weight := e.weight, color := e.color,
    startCluster := p.1, endCluster := p.2,
    theme_1 := e.theme_1, theme_2 := e.theme_2, sentiment := e.sentiment }

def edgeDataOf (nodes : List Node) (edges : List Edge) : List EdgeDatum :=
  edges.map (mkEdgeDatum nodes)

/- Complex page: the quarter's edges against all the quarter's nodes. -/
def edgeDataC (nodes : List Node) (edges : List Edge) (q : String) : List EdgeDatum :=
  edgeDataOf (nodesQ nodes q) (edgesQ edges q)

/- Mapping page: all edges against the connected nodes only. -/
def edgeDataM (nodes : List Node) (edges : List Edge) : List EdgeDatum :=
  edgeDataOf (connectedNodesM nodes edges) edges

/- ----- Node payload.  avg_score is unwrapped when it is a one-element
set, otherwise coerced through int(float(.)); the coercion raises on a
non-numeric value (none).  int() truncates toward zero. ----- -/

def truncQ (q : ℚ) : ℤ := Int.tdiv q.num (q.den : ℤ)

def avgScoreDisplay : ScoreVal → Option ℤ
  | ScoreVal.oneSet q => some (truncQ q)
  | ScoreVal.num q => some (truncQ q)
  | ScoreVal.nonNumeric => none

/- One entry of the payload's node array. -/
structure NodeDatum where
  x : ℚ
  y : ℚ
  size : ℚ
  cluster : String
  score : Option ℤ
  sentimentVal : ℚ
deriving DecidableEq

/- sorted(unique(cluster_name)): deduplicated names in ascending order;
strings are compared by their code-point sequences, the order sorted()
uses. -/
def uniqueClustersOf (nodes : List Node) : List String :=
  ((nodes.map (fun n => n.cluster_name)).dedup).insertionSort
    (fun a b => a.data ≤ b.data)

/- Complex page node array: all the quarter's nodes, grouped by cluster. -/
def nodeDataC (nodes : List Node) : List NodeDatum :=
  (uniqueClustersOf nodes).flatMap (fun c =>
    (nodes.filter (fun n => n.cluster_name == c)).map (fun n =>
      { x := -n.y, y := n.x, size := n.scaled_size, cluster := c,
        score := avgScoreDisplay n.avg_score, sentimentVal := n.sentiment }))

/- Mapping page node array: connected nodes only, sizes divided by 2.5. -/
def nodeDataM (nodes : List Node) (edges : List Edge) : List NodeDatum :=
  ((uniqueClustersOf (connectedNodesM nodes edges)).flatMap (fun c =>
    ((connectedNodesM nodes edges).filter (fun n => n.cluster_name == c)).map (fun n =>
      { x := -n.y, y := n.x, size := n.scaled_size / (5/2 : ℚ), cluster := c,
        score := avgScoreDisplay n.avg_score, sentimentVal := n.sentiment })))

/- ----- Cluster co-occurrence ranking of calculate_river_flow_data.
Endpoints are resolved by exact raw-coordinate match (first matching
row, iloc 0); an edge contributes its weight to the other endpoint's
cluster unless both endpoints fall in the same cluster. ----- -/

def findNodeAt (nodes : List Node) (p : ℚ × ℚ) : Option Node :=
  nodes.find? (fun n => decide ((n.x, n.y) = p))

def srcEdgeContribution (nodes : List Node) (c : String) (e : Edge) : Option (String × ℚ) :=
  match findNodeAt nodes (e.x0, e.y0), findNodeAt nodes (e.x1, e.y1) with
  | some s, some t =>
      if s.cluster_name = c ∨ t.cluster_name = c then
        let other := if s.cluster_name = c then t.cluster_name else s.cluster_name
        if other ≠ c then some (other, e.weight) else none
      else none
  | _, _ => none

def clusterEdgesC (nodes : List Node) (edges : List Edge) (c : String) : List (String × ℚ) :=
  edges.filterMap (srcEdgeContribution nodes c)

/- The co_occurrence_counts dict: keys in first-insertion order, values
accumulated by addition. -/
def addWeight (acc : List (String × ℚ)) (k : String) (w : ℚ) : List (String × ℚ) :=
  if acc.any (fun p => p.1 == k) then
    acc.map (fun p => if p.1 = k then (p.1, p.2 + w) else p)
  else acc ++ [(k, w)]

def accumWeights (l : List (String × ℚ)) : List (String × ℚ) :=
  l.foldl (fun acc p => addWeight acc p.1 p.2) []

/- Descending order on accumulated weight; a stable sort with this
relation reproduces sorted(..., reverse=True). -/
def geRel (p q : String × ℚ) : Prop := q.2 ≤ p.2

instance : DecidableRel geRel := fun p q => inferInstanceAs (Decidable (q.2 ≤ p.2))

instance : IsTotal (String × ℚ) geRel := ⟨fun a b => le_total b.2 a.2⟩

instance : IsTrans (String × ℚ) geRel := ⟨fun _ _ _ h1 h2 => le_trans h2 h1⟩

def sortDesc (l : List (String × ℚ)) : List (String × ℚ) :=
  l.insertionSort geRel

def topCoOccurrencesC (nodes : List Node) (edges : List Edge) (c : String) :
    List (String × ℚ) :=
  (sortDesc (accumWeights (clusterEdgesC nodes edges c))).take 2

/- Modelled from the spec wording of the ranking, for comparison with the
source pipeline: resolve either endpoint to its cluster, attribute the
weight to the other endpoint's cluster, excluding self-loops. -/
def resolveClusterAt (nodes : List Node) (p : ℚ × ℚ) : Option String :=
  (findNodeAt nodes p).map (fun n => n.cluster_name)

def specEdgeContribution (nodes : List Node) (c : String) (e : Edge) : Option (String × ℚ) :=
  match resolveClusterAt nodes (e.x0, e.y0), resolveClusterAt nodes (e.x1, e.y1) with
  | some a, some b =>
      if a = c ∧ b ≠ c then some (b, e.weight)
      else if b = c ∧ a ≠ c then some (a, e.weight)
      else none
  | _, _ => none

def specTopCoOccurrences (nodes : List Node) (edges : List Edge) (c : String) :
    List (String × ℚ) :=
  (sortDesc (accumWeights (edges.filterMap (specEdgeContribution nodes c)))).take 2

/- ----- Centroid layout.  np.average with scaled_size weights; the sum
of the weights is the divisor and np.average raises when it is zero, so
the embedding returns none in that case. ----- -/

def sumWeights (g : List Node) : ℚ :=
  (g.map (fun n => n.scaled_size)).sum

def weightedCentroid (g : List Node) : Option (ℚ × ℚ) :=
  if sumWeights g = 0 then none
  else some ((g.map (fun n => -n.y * n.scaled_size)).sum / sumWeights g,
             (g.map (fun n => n.x * n.scaled_size)).sum / sumWeights g)

/- Modelled from the spec wording of the centroid: the size-weighted
average, falling back to the unweighted mean when all weights are zero. -/
def centroidSpec (g : List Node) : Option (ℚ × ℚ) :=
  if g = [] then none
  else if sumWeights g = 0 then
    some ((g.map (fun n => -n.y)).sum / (g.length : ℚ),
          (g.map (fun n => n.x)).sum / (g.length : ℚ))
  else some ((g.map (fun n => -n.y * n.scaled_size)).sum / sumWeights g,
             (g.map (fun n => n.x * n.scaled_size)).sum / sumWeights g)

/- ----- Label angle offsets.  np.linspace(0, span*pi, n, endpoint=False)
plus pi/n: the label angle of cluster i among n is angleCoeff span n i
times pi.  The complex page uses span 1.2, the mapping page 2.2; the
displacement radii are 0.27 and 0.4. ----- -/

def arcSpanC : ℚ := 6/5

def arcSpanM : ℚ := 11/5

def angleCoeff (span : ℚ) (n i : ℕ) : ℚ :=
  span * (i : ℚ) / (n : ℚ) + 1 / (n : ℚ)

def radiusOffsetC : ℚ := 27/100

def radiusOffsetM : ℚ := 2/5

/- ----- Hover-sampling points.  numPoints = max(5, floor(L*20)) with L
the Euclidean length; floor(L*20) = floor(sqrt(400*L^2)) is computed
exactly on rationals through Nat.sqrt. ----- -/

def ratFloorSqrt (q : ℚ) : ℕ :=
  Nat.sqrt (q.num.toNat * q.den) / q.den

def lenSq (d : EdgeDatum) : ℚ :=
  (d.x1 - d.x0) * (d.x1 - d.x0) + (d.y1 - d.y0) * (d.y1 - d.y0)

def numPoints (d : EdgeDatum) : ℕ :=
  max 5 (ratFloorSqrt (400 * lenSq d))

/- The i-th point sits at parameter t = i/(numPoints-1) along the
segment and carries the edge's hover record. -/
def hoverPoints (d : EdgeDatum) : List (ℚ × ℚ × EdgeDatum) :=
  (List.range (numPoints d)).map (fun (i : ℕ) =>
    ((d.x0 + ((i : ℚ) / ((numPoints d : ℚ) - 1)) * (d.x1 - d.x0),
      (d.y0 + ((i : ℚ) / ((numPoints d : ℚ) - 1)) * (d.y1 - d.y0), d))))

/- ----- Concrete table rows used by the scenario theorems. ----- -/

def mkNode (x y : ℚ) (c : String) : Node :=
  { quarter := "20241", x := x, y := y, cluster_name := c, theme := "t",
    avg_score := ScoreVal.num 1, scaled_size := 1, sentiment := 0 }

def mkNodeW (x y : ℚ) (c : String) (w : ℚ) : Node :=
  { quarter := "20241", x := x, y := y, cluster_name := c, theme := "t",
    avg_score := ScoreVal.num 1, scaled_size := w, sentiment := 0 }

def mkEdge (x0 y0 x1 y1 : ℚ) : Edge :=
  { quarter := "20241", x0 := x0, y0 := y0, x1 := x1, y1 := y1,
    weight := 50, color := "green", theme_1 := "t1", theme_2 := "t2",
    sentiment := 0 }

def mkEdgeW (x0 y0 x1 y1 w : ℚ) : Edge :=
  { quarter := "20241", x0 := x0, y0 := y0, x1 := x1, y1 := y1,
    weight := w, color := "green", theme_1 := "t1", theme_2 := "t2",
    sentiment := 0 }

/- The 3-node, 1-edge quarter of the connectivity scenario. -/
def exNodes : List Node := [mkNode 0 0 "A", mkNode 1 0 "B", mkNode 2 3 "C"]

def exEdges : List Edge := [mkEdge 0 0 1 0]

/- A cluster with two equally weighted co-occurring clusters, B met
before C, and a lighter D. -/
def tieNodes : List Node :=
  [mkNode 0 0 "A", mkNode 1 0 "B", mkNode 0 1 "C", mkNode 1 1 "D"]

def tieEdges : List Edge :=
  [mkEdgeW 0 0 1 0 5, mkEdgeW 0 0 0 1 5, mkEdgeW 0 0 1 1 3]

/- A zero-length enriched edge for the hover-sampling scenario. -/
def zeroDatum : EdgeDatum :=
  { x0 := 3, y0 := 4, x1 := 3, y1 := 4, weight := 50, color := "green",
    startCluster := "A", endCluster := "Unknown",
    theme_1 := "t1", theme_2 := "t2", sentiment := 0 }

/- ----- Theorems ----- -/

/- A coordinate pair lies in the endpoint set of a quarter's edges
exactly when some edge of the quarter has it as one of its endpoints. -/
theorem mem_edgeCoordsC {edges : List Edge} {p : ℚ × ℚ} :
    p ∈ edgeCoordsC edges ↔ ∃ e ∈ edges, p = (e.x0, e.y0) ∨ p = (e.x1, e.y1) := by
  simp [edgeCoordsC]

/-- C9: a node of the selected quarter is classified as connected iff its
(x, y) position occurs as an endpoint of some edge of that quarter; on the
3-node, 1-edge scenario quarter the connected count is 2 and the
co-occurrence rate is 200/3 (about 66.7). -/
theorem c9_connected_iff_endpoint :
    (∀ (nodes : List Node) (edges : List Edge) (q : String) (n : Node),
      n ∈ connectedNodesC nodes edges q ↔
        n ∈ nodesQ nodes q ∧
          ∃ e ∈ edgesQ edges q,
            (n.x = e.x0 ∧ n.y = e.y0) ∨ (n.x = e.x1 ∧ n.y = e.y1)) ∧
    connectedCountC exNodes exEdges "20241" = 2 ∧
    coOccurrenceRateC exNodes exEdges "20241" = 200/3 := by
  have h1 : connectedCountC exNodes exEdges "20241" = 2 := by decide
  have h2 : totalNodesC exNodes "20241" = 3 := by decide
  refine ⟨?_, h1, ?_⟩
  · intro nodes edges q n
    simp [connectedNodesC, hasEdgeC, mem_edgeCoordsC, List.mem_filter, Prod.ext_iff]
  · simp only [coOccurrenceRateC, h1, h2]
    norm_num

/-- C1: in calculate_river_flow_data the co-occurrence rate equals
connected_count / total_nodes * 100 whenever total_nodes is nonzero and is
0 when total_nodes is 0; but the run() of the mapping page divides by
total_nodes with no guard, so on an empty node table the computation
raises a division fault (none) instead of yielding 0. -/
theorem c1_rate_guard :
    coOccurrenceRateM [] [] = none ∧
    (∀ (nodes : List Node) (edges : List Edge) (q : String),
      totalNodesC nodes q = 0 → coOccurrenceRateC nodes edges q = 0) ∧
    (∀ (nodes : List Node) (edges : List Edge) (q : String),
      totalNodesC nodes q ≠ 0 →
        coOccurrenceRateC nodes edges q =
          (connectedCountC nodes edges q : ℚ) / (totalNodesC nodes q : ℚ) * 100) := by
  refine ⟨rfl, ?_, ?_⟩ <;> intro nodes edges q h
  · simp [coOccurrenceRateC, h]
  · simp [coOccurrenceRateC, Nat.pos_of_ne_zero h]

/-- C1 witness: the guarded rate evaluated on an empty quarter and on the
3-node scenario quarter. -/
theorem c1_rate_guard_witness :
    coOccurrenceRateC ([] : List Node) ([] : List Edge) "20241" = 0 ∧
    coOccurrenceRateC exNodes exEdges "20241" =
      (connectedCountC exNodes exEdges "20241" : ℚ) /
        (totalNodesC exNodes "20241" : ℚ) * 100 :=
  ⟨c1_rate_guard.2.1 [] [] "20241" (by decide),
   c1_rate_guard.2.2 exNodes exEdges "20241" (by decide)⟩

/- If no node of the list matches the start coordinate, the fold leaves
the start side of the accumulator unchanged. -/
theorem foldl_fst_of_no_start (e : Edge) :
    ∀ (nodes : List Node) (init : String × String),
    (∀ n ∈ nodes, nodeRot n ≠ edgeRot0 e) →
    (nodes.foldl (resolveStep e) init).1 = init.1 := by
  intro nodes
  induction nodes with
  | nil => intro init _; rfl
  | cons m ms ih =>
    intro init h
    simp only [List.foldl_cons]
    rw [ih _ (fun n hn => h n (List.mem_cons_of_mem _ hn))]
    have h0 := h m (List.mem_cons_self m ms)
    simp only [resolveStep, if_neg h0]
    split <;> rfl

/- If every node matching the end coordinate also matches the start
coordinate, the elif branch never fires and the end side is unchanged. -/
theorem foldl_snd_of_no_end (e : Edge) :
    ∀ (nodes : List Node) (init : String × String),
    (∀ n ∈ nodes, nodeRot n = edgeRot1 e → nodeRot n = edgeRot0 e) →
    (nodes.foldl (resolveStep e) init).2 = init.2 := by
  intro nodes
  induction nodes with
  | nil => intro init _; rfl
  | cons m ms ih =>
    intro init h
    simp only [List.foldl_cons]
    rw [ih _ (fun n hn => h n (List.mem_cons_of_mem _ hn))]
    by_cases h0 : nodeRot m = edgeRot0 e
    · simp [resolveStep, h0]
    · have h1 : nodeRot m ≠ edgeRot1 e :=
        fun hh => h0 (h m (List.mem_cons_self m ms) hh)
      simp [resolveStep, h0, h1]

/- If some node matches the start coordinate and every matching node
carries cluster name c, the fold resolves the start side to c. -/
theorem foldl_fst_uniform (e : Edge) (c : String) :
    ∀ (nodes : List Node) (init : String × String),
    (∀ n ∈ nodes, nodeRot n = edgeRot0 e → n.cluster_name = c) →
    (∃ n ∈ nodes, nodeRot n = edgeRot0 e) →
    (nodes.foldl (resolveStep e) init).1 = c := by
  intro nodes
  induction nodes with
  | nil => intro init _ hex; simp at hex
  | cons m ms ih =>
    intro init hc hex
    simp only [List.foldl_cons]
    by_cases hex' : ∃ n ∈ ms, nodeRot n = edgeRot0 e
    · exact ih _ (fun n hn h => hc n (List.mem_cons_of_mem _ hn) h) hex'
    · have hm : nodeRot m = edgeRot0 e := by
        obtain ⟨n, hn, hmatch⟩ := hex
        rcases List.mem_cons.mp hn with rfl | hn'
        · exact hmatch
        · exact absurd ⟨n, hn', hmatch⟩ hex'
      have hnostart : ∀ n ∈ ms, nodeRot n ≠ edgeRot0 e :=
        fun n hn h => hex' ⟨n, hn, h⟩
      rw [foldl_fst_of_no_start e ms _ hnostart]
      simp only [resolveStep, if_pos hm]
      exact hc m (List.mem_cons_self m ms) hm

/-- C5: enrichment emits exactly one record per edge, and an endpoint with
no exactly matching node coordinate leaves that side labeled "Unknown"
without faulting. -/
theorem c5_edge_enrichment (nodes : List Node) (edges : List Edge) (e : Edge) :
    (edgeDataOf nodes edges).length = edges.length ∧
    ((∀ n ∈ nodes, nodeRot n ≠ edgeRot0 e) →
      (mkEdgeDatum nodes e).startCluster = "Unknown") ∧
    ((∀ n ∈ nodes, nodeRot n ≠ edgeRot1 e) →
      (mkEdgeDatum nodes e).endCluster = "Unknown") := by
  refine ⟨by simp [edgeDataOf], ?_, ?_⟩
  · intro h
    show (resolveClusters nodes e).1 = "Unknown"
    exact foldl_fst_of_no_start e nodes _ h
  · intro h
    show (resolveClusters nodes e).2 = "Unknown"
    exact foldl_snd_of_no_end e nodes _ (fun n hn h1 => absurd h1 (h n hn))

/-- C5 witness: an edge with both endpoints absent from the node subset is
enriched with "Unknown" on both sides and still yields one record. -/
theorem c5_edge_enrichment_witness :
    (edgeDataOf [mkNode 5 5 "A"] [mkEdge 0 0 1 0]).length = 1 ∧
    (mkEdgeDatum [mkNode 5 5 "A"] (mkEdge 0 0 1 0)).startCluster = "Unknown" ∧
    (mkEdgeDatum [mkNode 5 5 "A"] (mkEdge 0 0 1 0)).endCluster = "Unknown" := by
  have h := c5_edge_enrichment [mkNode 5 5 "A"] [mkEdge 0 0 1 0] (mkEdge 0 0 1 0)
  exact ⟨h.1, h.2.1 (by decide), h.2.2 (by decide)⟩

/-- C10: for a zero-length edge whose shared endpoint coincides with a
node, only the start side resolves to that node's cluster; the end side
stays "Unknown" because the end comparison sits in an exclusive elif. -/
theorem c10_degenerate_edge (nodes : List Node) (e : Edge) (n : Node)
    (hx : e.x1 = e.x0) (hy : e.y1 = e.y0)
    (hn : n ∈ nodes) (hmatch : nodeRot n = edgeRot0 e)
    (huniq : ∀ m ∈ nodes, nodeRot m = edgeRot0 e → m.cluster_name = n.cluster_name) :
    (mkEdgeDatum nodes e).startCluster = n.cluster_name ∧
    (mkEdgeDatum nodes e).endCluster = "Unknown" := by
  have hdeg : edgeRot1 e = edgeRot0 e := by simp [edgeRot0, edgeRot1, hx, hy]
  constructor
  · show (resolveClusters nodes e).1 = n.cluster_name
    exact foldl_fst_uniform e n.cluster_name nodes _ huniq ⟨n, hn, hmatch⟩
  · show (resolveClusters nodes e).2 = "Unknown"
    exact foldl_snd_of_no_end e nodes _ (fun m _ h1 => by rwa [hdeg] at h1)

/-- C10 witness: a concrete zero-length edge on top of the node (1,2). -/
theorem c10_degenerate_edge_witness :
    (mkEdgeDatum [mkNode 1 2 "A"] (mkEdge 1 2 1 2)).startCluster = "A" ∧
    (mkEdgeDatum [mkNode 1 2 "A"] (mkEdge 1 2 1 2)).endCluster = "Unknown" := by
  have h := c10_degenerate_edge [mkNode 1 2 "A"] (mkEdge 1 2 1 2) (mkNode 1 2 "A")
    rfl rfl (List.mem_cons_self _ _) (by decide) (by decide)
  exact h

/-- C2 counterexample: on a cluster whose only member has scaled_size 0
the source centroid computation divides by a zero weight sum and faults
(none); the claimed unweighted-mean fallback would give (-2, 1) for the
rotated position of the node (1,2). -/
theorem c2_centroid_counterexample :
    weightedCentroid [mkNodeW 1 2 "A" 0] = none ∧
    centroidSpec [mkNodeW 1 2 "A" 0] = some (-2, 1) ∧
    weightedCentroid [mkNodeW 1 2 "A" 0] ≠ centroidSpec [mkNodeW 1 2 "A" 0] := by
  have h1 : weightedCentroid [mkNodeW 1 2 "A" 0] = none := by
    simp [weightedCentroid, sumWeights, mkNodeW]
  have h2 : centroidSpec [mkNodeW 1 2 "A" 0] = some (-2, 1) := by
    simp [centroidSpec, sumWeights, mkNodeW]
  refine ⟨h1, h2, ?_⟩
  rw [h1, h2]
  simp

/-- C2 amended: the centroid is the scaled_size-weighted average of the
members' rotated positions whenever the weights do not sum to zero, where
it agrees with the spec-modelled fallback version; when all weights are
zero the computation faults instead of falling back to the unweighted
mean. -/
theorem c2_centroid_amended (g : List Node) (h : sumWeights g ≠ 0) :
    weightedCentroid g = centroidSpec g ∧
    ∃ cx cy, weightedCentroid g = some (cx, cy) ∧
      cx * sumWeights g = (g.map (fun n => -n.y * n.scaled_size)).sum ∧
      cy * sumWeights g = (g.map (fun n => n.x * n.scaled_size)).sum := by
  have hg : g ≠ [] := by
    intro hnil
    exact h (by simp [hnil, sumWeights])
  constructor
  · simp [weightedCentroid, centroidSpec, h, hg]
  · refine ⟨(g.map (fun n => -n.y * n.scaled_size)).sum / sumWeights g,
      (g.map (fun n => n.x * n.scaled_size)).sum / sumWeights g, ?_, ?_, ?_⟩
    · simp [weightedCentroid, h]
    · exact div_mul_cancel₀ _ h
    · exact div_mul_cancel₀ _ h

/-- C2 witness: a two-node cluster with weight sum 4. -/
theorem c2_centroid_amended_witness :
    weightedCentroid [mkNodeW 1 2 "A" 2, mkNodeW 3 4 "A" 2] =
      centroidSpec [mkNodeW 1 2 "A" 2, mkNodeW 3 4 "A" 2] ∧
    ∃ cx cy,
      weightedCentroid [mkNodeW 1 2 "A" 2, mkNodeW 3 4 "A" 2] = some (cx, cy) ∧
      cx * sumWeights [mkNodeW 1 2 "A" 2, mkNodeW 3 4 "A" 2] =
        ([mkNodeW 1 2 "A" 2, mkNodeW 3 4 "A" 2].map (fun n => -n.y * n.scaled_size)).sum ∧
      cy * sumWeights [mkNodeW 1 2 "A" 2, mkNodeW 3 4 "A" 2] =
        ([mkNodeW 1 2 "A" 2, mkNodeW 3 4 "A" 2].map (fun n => n.x * n.scaled_size)).sum :=
  c2_centroid_amended _ (by norm_num [sumWeights, mkNodeW])

/-- C7 counterexample: with 7 clusters on the mapping page the last
cluster's label angle is (11/5 * 6 / 7 + 1/7) * pi = (71/35) * pi, which
exceeds the full turn 2 * pi, so the clusters are not distributed across
an arc spanning less than a full turn. -/
theorem c7_arc_counterexample :
    2 < angleCoeff arcSpanM 7 6 ∧
    2 * Real.pi < ((angleCoeff arcSpanM 7 6 : ℚ) : ℝ) * Real.pi := by
  have h : (2 : ℚ) < angleCoeff arcSpanM 7 6 := by
    norm_num [angleCoeff, arcSpanM]
  refine ⟨h, ?_⟩
  have h2 : (2 : ℝ) < ((angleCoeff arcSpanM 7 6 : ℚ) : ℝ) := by exact_mod_cast h
  exact mul_lt_mul_of_pos_right h2 Real.pi_pos

/-- C7 amended: labels are distributed at evenly spaced angles
(span/n * pi apart) with phase shift pi/n keeping every cluster off angle
0, and the centroid is displaced by exactly the fixed radius; the arc
span constant is 1.2 * pi on the complex page (always under a full turn)
but 2.2 * pi on the mapping page. -/
theorem c7_label_angles (n i : ℕ) (hn : 0 < n) (hi : i < n) :
    (0 < angleCoeff arcSpanC n i ∧ angleCoeff arcSpanC n i < 2) ∧
    0 < angleCoeff arcSpanM n i ∧
    angleCoeff arcSpanC n (i+1) - angleCoeff arcSpanC n i = arcSpanC / n ∧
    angleCoeff arcSpanM n (i+1) - angleCoeff arcSpanM n i = arcSpanM / n ∧
    ∀ θ : ℝ, ((radiusOffsetC : ℝ) * Real.cos θ)^2 +
        ((radiusOffsetC : ℝ) * Real.sin θ)^2 = ((radiusOffsetC : ℝ))^2 := by
  have hn' : (0 : ℚ) < (n : ℚ) := by exact_mod_cast hn
  have hi' : ((i : ℚ)) + 1 ≤ (n : ℚ) := by exact_mod_cast Nat.succ_le_of_lt hi
  refine ⟨⟨?_, ?_⟩, ?_, ?_, ?_, ?_⟩
  · unfold angleCoeff arcSpanC
    positivity
  · rw [angleCoeff, arcSpanC, div_add_div_same, div_lt_iff₀ hn']
    linarith
  · unfold angleCoeff arcSpanM
    positivity
  · simp only [angleCoeff]
    push_cast
    ring
  · simp only [angleCoeff]
    push_cast
    ring
  · intro θ
    linear_combination ((radiusOffsetC : ℝ))^2 * Real.sin_sq_add_cos_sq θ

/-- C7 witness: the amended angle facts evaluated at 7 clusters, index 3. -/
theorem c7_label_angles_witness :
    (0 < angleCoeff arcSpanC 7 3 ∧ angleCoeff arcSpanC 7 3 < 2) ∧
    0 < angleCoeff arcSpanM 7 3 :=
  ⟨(c7_label_angles 7 3 (by norm_num) (by norm_num)).1,
   (c7_label_angles 7 3 (by norm_num) (by norm_num)).2.1⟩

/-- C6 counterexample: a non-numeric avg_score is not coerced to a 0
fallback: the int(float(.)) coercion raises, modelled as none. -/
theorem c6_avg_score_counterexample :
    avgScoreDisplay ScoreVal.nonNumeric = none ∧
    avgScoreDisplay ScoreVal.nonNumeric ≠ some 0 :=
  ⟨rfl, by simp [avgScoreDisplay]⟩

/-- C6 amended: a one-element collection is unwrapped ({42} displays as
42) and a plain numeric value is truncated to an integer, but a
non-numeric avg_score raises a type fault (none); only the sentiment
field has a defensive 0.0 fallback in the source. -/
theorem c6_avg_score_amended :
    avgScoreDisplay (ScoreVal.oneSet 42) = some 42 ∧
    (∀ q : ℚ, avgScoreDisplay (ScoreVal.oneSet q) = some (truncQ q)) ∧
    (∀ q : ℚ, avgScoreDisplay (ScoreVal.num q) = some (truncQ q)) ∧
    avgScoreDisplay ScoreVal.nonNumeric = none := by
  refine ⟨?_, fun q => rfl, fun q => rfl, rfl⟩
  decide

/- The source contribution of one edge to a cluster's co-occurrence
tally agrees with the spec-worded contribution. -/
theorem edgeContribution_eq (nodes : List Node) (c : String) (e : Edge) :
    srcEdgeContribution nodes c e = specEdgeContribution nodes c e := by
  unfold srcEdgeContribution specEdgeContribution resolveClusterAt
  cases h0 : findNodeAt nodes (e.x0, e.y0) with
  | none => simp
  | some s =>
    cases h1 : findNodeAt nodes (e.x1, e.y1) with
    | none => simp
    | some t =>
      simp only [Option.map_some']
      by_cases ha : s.cluster_name = c <;> by_cases hb : t.cluster_name = c <;>
        simp [ha, hb]

theorem filterMap_ext {α β : Type} (f g : α → Option β) (h : ∀ a, f a = g a)
    (l : List α) : l.filterMap f = l.filterMap g := by
  have hfg : f = g := funext h
  rw [hfg]

/-- C3: the per-cluster ranking of the source equals the spec-worded
pipeline (other-endpoint attribution, self-loops excluded, accumulation,
stable descending sort, top 2); it retains at most 2 entries in
descending weight order; and on a concrete tie the first-encountered
cluster stays first. -/
theorem c3_co_occurrence_ranking (nodes : List Node) (edges : List Edge) (c : String) :
    topCoOccurrencesC nodes edges c = specTopCoOccurrences nodes edges c ∧
    (topCoOccurrencesC nodes edges c).length ≤ 2 ∧
    List.Sorted geRel (topCoOccurrencesC nodes edges c) ∧
    topCoOccurrencesC tieNodes tieEdges "A" = [("B", 5), ("C", 5)] := by
  refine ⟨?_, ?_, ?_, ?_⟩
  · unfold topCoOccurrencesC specTopCoOccurrences clusterEdgesC
    rw [filterMap_ext _ _ (edgeContribution_eq nodes c) edges]
  · exact List.length_take_le 2 _
  · exact ((List.sorted_insertionSort geRel _).sublist (List.take_sublist 2 _))
  · decide

theorem length_filter_add_not {α : Type} (p : α → Bool) (l : List α) :
    (l.filter p).length + (l.filter (fun a => !(p a))).length = l.length := by
  induction l with
  | nil => rfl
  | cons a l ih =>
    by_cases h : p a <;> simp [List.filter_cons, h, ← ih] <;> omega

/- Grouping a list by a complete, duplicate-free key list partitions it:
the group sizes add up to the list's length. -/
theorem sum_group_lengths (key : Node → String) :
    ∀ (ks : List String) (l : List Node), ks.Nodup →
    (∀ n ∈ l, key n ∈ ks) →
    (ks.map (fun c => (l.filter (fun n => key n == c)).length)).sum = l.length := by
  intro ks
  induction ks with
  | nil =>
    intro l _ hall
    have hl : l = [] := by
      cases l with
      | nil => rfl
      | cons a l => exact absurd (hall a (List.mem_cons_self a l)) (List.not_mem_nil _)
    simp [hl]
  | cons k ks ih =>
    intro l hnd hall
    have hk : k ∉ ks := (List.nodup_cons.mp hnd).1
    have hnd' : ks.Nodup := (List.nodup_cons.mp hnd).2
    simp only [List.map_cons, List.sum_cons]
    have hcong : ∀ c ∈ ks,
        (l.filter (fun n => key n == c)).length =
          ((l.filter (fun n => !(key n == k))).filter (fun n => key n == c)).length := by
      intro c hc
      have hck : c ≠ k := fun h => hk (h ▸ hc)
      rw [List.filter_filter]
      congr 1
      apply List.filter_congr
      intro n _
      by_cases h : key n = c
      · simp [h, hck]
      · simp [h]
    rw [List.map_congr_left hcong]
    rw [ih (l.filter (fun n => !(key n == k))) hnd' ?complete]
    case complete =>
      intro n hn
      have hmem := List.mem_filter.mp hn
      have hne : key n ≠ k := by simpa using hmem.2
      have := hall n hmem.1
      rcases List.mem_cons.mp this with h | h
      · exact absurd h hne
      · exact h
    exact length_filter_add_not (fun n => key n == k) l

/- The cluster-name list used for grouping is duplicate-free and
contains every member's cluster name. -/
theorem nodup_uniqueClustersOf (nodes : List Node) :
    (uniqueClustersOf nodes).Nodup := by
  unfold uniqueClustersOf
  exact (List.perm_insertionSort _ _).nodup_iff.mpr (List.nodup_dedup _)

theorem mem_uniqueClustersOf {nodes : List Node} {n : Node} (hn : n ∈ nodes) :
    n.cluster_name ∈ uniqueClustersOf nodes := by
  unfold uniqueClustersOf
  rw [(List.perm_insertionSort _ _).mem_iff, List.mem_dedup]
  exact List.mem_map_of_mem _ hn

/- Any cluster-grouped node payload has exactly one entry per node. -/
theorem length_grouped (l : List Node) (f : String → Node → NodeDatum) :
    ((uniqueClustersOf l).flatMap (fun c =>
      (l.filter (fun n => n.cluster_name == c)).map (f c))).length = l.length := by
  rw [List.length_flatMap]
  simp only [Function.comp_def]
  have : ((uniqueClustersOf l).map (fun c =>
      ((l.filter (fun n => n.cluster_name == c)).map (f c)).length)) =
      ((uniqueClustersOf l).map (fun c =>
      (l.filter (fun n => n.cluster_name == c)).length)) := by
    apply List.map_congr_left
    intro c _
    exact List.length_map _ _
  rw [this]
  exact sum_group_lengths (fun n => n.cluster_name) (uniqueClustersOf l) l
    (nodup_uniqueClustersOf l) (fun n hn => mem_uniqueClustersOf hn)

/-- C8 amended: both pages emit one edge record per (quarter) edge, so the
edge array length equals total_edges; the complex page's node array has
exactly total_nodes entries, but the mapping page's node array holds only
the connected nodes, so its length equals connected_count rather than
total_nodes. -/
theorem c8_payload_counts (nodes : List Node) (edges : List Edge) (q : String) :
    (edgeDataC nodes edges q).length = totalEdgesC edges q ∧
    (nodeDataC (nodesQ nodes q)).length = totalNodesC nodes q ∧
    (edgeDataM nodes edges).length = edges.length ∧
    (nodeDataM nodes edges).length = connectedCountM nodes edges := by
  refine ⟨by simp [edgeDataC, edgeDataOf, totalEdgesC], ?_, by simp [edgeDataM, edgeDataOf], ?_⟩
  · exact length_grouped (nodesQ nodes q) _
  · exact length_grouped (connectedNodesM nodes edges) _

/-- C8 counterexample: on the 3-node, 1-edge table the mapping page's
node array holds the 2 connected nodes while the summary total_nodes
scalar is 3, so re-deriving total_nodes from the payload's node array
does not match. -/
theorem c8_payload_counts_counterexample :
    (nodeDataM exNodes exEdges).length = 2 ∧
    totalNodesM exNodes = 3 ∧
    (nodeDataM exNodes exEdges).length ≠ totalNodesM exNodes := by
  refine ⟨?_, rfl, ?_⟩ <;> decide

/- The rational floor square root computes the floor of the real square
root: for q = a/b with a, b natural, sqrt(a/b) = sqrt(a*b)/b and the
floor commutes with the division by b. -/
theorem ratFloorSqrt_eq (q : ℚ) (hq : 0 ≤ q) :
    ratFloorSqrt q = ⌊Real.sqrt ((q : ℝ))⌋₊ := by
  have hden : (0:ℝ) < (q.den : ℝ) := by exact_mod_cast q.den_pos
  have hnum : ((q.num.toNat : ℤ)) = q.num := Int.toNat_of_nonneg (Rat.num_nonneg.mpr hq)
  have hcast : (q : ℝ) = (q.num.toNat : ℝ) / (q.den : ℝ) := by
    rw [Rat.cast_def]
    congr 1
    exact_mod_cast congrArg (fun z : ℤ => (z : ℝ)) hnum.symm
  have hsqrt : Real.sqrt (q : ℝ) =
      Real.sqrt ((q.num.toNat * q.den : ℕ) : ℝ) / (q.den : ℝ) := by
    rw [hcast]
    rw [show (q.num.toNat : ℝ) / (q.den : ℝ)
        = ((q.num.toNat * q.den : ℕ) : ℝ) / ((q.den : ℝ))^2 by
      push_cast
      field_simp
      ring]
    rw [Real.sqrt_div (by positivity) (((q.den : ℝ))^2), Real.sqrt_sq hden.le]
  rw [hsqrt, Nat.floor_div_nat, Real.nat_floor_real_sqrt_eq_nat_sqrt]
  rfl

/-- C4: for every enriched edge, the hover points are the n parametric
points t = i/(n-1) along the segment, each carrying the edge's hover
record; the count n = numPoints equals max(5, floor(L * 20)) for the
Euclidean length L = sqrt(lenSq); and a zero-length edge gets exactly 5
coincident points with no division fault. -/
theorem c4_hover_sampling (d : EdgeDatum) :
    hoverPoints d = (List.range (numPoints d)).map (fun (i : ℕ) =>
      ((d.x0 + ((i : ℚ) / ((numPoints d : ℚ) - 1)) * (d.x1 - d.x0),
        (d.y0 + ((i : ℚ) / ((numPoints d : ℚ) - 1)) * (d.y1 - d.y0), d)))) ∧
    (hoverPoints d).length = numPoints d ∧
    (numPoints d : ℤ) = max 5 ⌊(20 : ℝ) * Real.sqrt ((lenSq d : ℝ))⌋ ∧
    (lenSq d = 0 → numPoints d = 5 ∧ ∀ p ∈ hoverPoints d, p = (d.x0, (d.y0, d))) := by
  have hs : (0:ℚ) ≤ lenSq d :=
    add_nonneg (mul_self_nonneg _) (mul_self_nonneg _)
  refine ⟨rfl, by rw [hoverPoints, List.length_map, List.length_range], ?_, ?_⟩
  · have h400 : (0:ℚ) ≤ 400 * lenSq d := by positivity
    have h1 : ratFloorSqrt (400 * lenSq d) = ⌊Real.sqrt (((400 * lenSq d : ℚ) : ℝ))⌋₊ :=
      ratFloorSqrt_eq _ h400
    have h2 : Real.sqrt (((400 * lenSq d : ℚ) : ℝ)) = 20 * Real.sqrt ((lenSq d : ℝ)) := by
      push_cast
      rw [Real.sqrt_mul (by norm_num : (0:ℝ) ≤ 400)]
      congr 1
      rw [show (400:ℝ) = 20^2 by norm_num, Real.sqrt_sq (by norm_num : (0:ℝ) ≤ 20)]
    have h3 : (0:ℝ) ≤ 20 * Real.sqrt ((lenSq d : ℝ)) := by positivity
    rw [numPoints, h1, h2]
    push_cast [Int.natCast_floor_eq_floor h3]
    rfl
  · intro h
    have hnp : numPoints d = 5 := by
      rw [numPoints, h]
      norm_num [ratFloorSqrt]
    have ha := mul_self_nonneg (d.x1 - d.x0)
    have hb := mul_self_nonneg (d.y1 - d.y0)
    have h1 : (d.x1 - d.x0) * (d.x1 - d.x0) = 0 := by
      unfold lenSq at h
      linarith
    have h2 : (d.y1 - d.y0) * (d.y1 - d.y0) = 0 := by
      unfold lenSq at h
      linarith
    have hdx : d.x1 - d.x0 = 0 := mul_self_eq_zero.mp h1
    have hdy : d.y1 - d.y0 = 0 := mul_self_eq_zero.mp h2
    refine ⟨hnp, ?_⟩
    intro p hp
    rw [hoverPoints] at hp
    obtain ⟨i, _, rfl⟩ := List.mem_map.mp hp
    simp [hdx, hdy]

/-- C4 witness: the zero-length enriched edge at (3,4) receives exactly 5
points, all at (3,4). -/
theorem c4_hover_sampling_witness :
    numPoints zeroDatum = 5 ∧
    ∀ p ∈ hoverPoints zeroDatum, p = (3, (4, zeroDatum)) := by
  have h := (c4_hover_sampling zeroDatum).2.2.2
    (by norm_num [lenSq, zeroDatum])
  exact h
